import Mathlib

/-!
Verification of the two plane-visualization programs (`ele.py` and the
cross-section visualization).  The definitions below are shallow embeddings of
the source: pure arithmetic becomes functions over `ℤ` or `ℝ`, the per-frame
state updates become explicit state-passing functions, and the drawing
samplers become functions producing the geometric data they would draw.
-/

/-- Window width constant of `ele.py` (`WIDTH = 900`). -/
def eleWIDTH : ℤ := 900

/-- Window height constant of `ele.py` (`HEIGHT = 600`). -/
def eleHEIGHT : ℤ := 600

/-- Embedding of `GeometryViz.to_screen`: `(int(WIDTH / 2 + x), int(HEIGHT / 2 - y))`.
On integer inputs the float arithmetic is exact, so the embedding works over `ℤ`. -/
def to_screen (x y : ℤ) : ℤ × ℤ := (eleWIDTH / 2 + x, eleHEIGHT / 2 - y)

/-- Embedding of `GeometryViz.to_math`: `(screen_x - WIDTH // 2, HEIGHT // 2 - screen_y)`. -/
def to_math (sx sy : ℤ) : ℤ × ℤ := (sx - eleWIDTH / 2, eleHEIGHT / 2 - sy)

/-- Midpoint of `A` and `B` as computed in `draw_euclidean_elements`
(`mid_x = (A[0] + B[0]) / 2`, `mid_y = (A[1] + B[1]) / 2`). -/
noncomputable def midAB (A B : ℝ × ℝ) : ℝ × ℝ := ((A.1 + B.1) / 2, (A.2 + B.2) / 2)

/-- The half-extent vector `(perp_dx, perp_dy) = (-dy/length * 80, dx/length * 80)`
of the perpendicular bisector in `draw_euclidean_elements`. -/
noncomputable def perpHalf (A B : ℝ × ℝ) : ℝ × ℝ :=
  (-(B.2 - A.2) / Real.sqrt ((B.1 - A.1) * (B.1 - A.1) + (B.2 - A.2) * (B.2 - A.2)) * 80,
   (B.1 - A.1) / Real.sqrt ((B.1 - A.1) * (B.1 - A.1) + (B.2 - A.2) * (B.2 - A.2)) * 80)

/-- Embedding of the perpendicular-bisector sampler of `draw_euclidean_elements`:
when `length > 0` it emits the segment `(mid + perp, mid - perp)`, otherwise the
`if length > 0` guard skips the drawing (and the division) entirely. -/
noncomputable def perpBisector (A B : ℝ × ℝ) : Option ((ℝ × ℝ) × (ℝ × ℝ)) :=
  if 0 < Real.sqrt ((B.1 - A.1) * (B.1 - A.1) + (B.2 - A.2) * (B.2 - A.2)) then
    some (((midAB A B).1 + (perpHalf A B).1, (midAB A B).2 + (perpHalf A B).2),
          ((midAB A B).1 - (perpHalf A B).1, (midAB A B).2 - (perpHalf A B).2))
  else none

/-- Embedding of the y-value computation of the 4D-slice sampler
(`draw_four_d_slices`, branches `i == 1` and `i == 2`):
`y_val = math.sqrt(abs(radius**2 - s**2 - x**2))`. -/
noncomputable def sliceYVal (r s x : ℝ) : ℝ := Real.sqrt |r ^ 2 - s ^ 2 - x ^ 2|

/-- Claim C1: for every pair of integer mathematical coordinates `(x, y)`,
`to_math (to_screen (x, y)) = (x, y)`: `to_math` exactly inverts `to_screen`,
and both functions are pure and total on `ℤ`. -/
theorem to_math_to_screen_inverse (x y : ℤ) :
    to_math (to_screen x y).1 (to_screen x y).2 = (x, y) := by
  simp [to_screen, to_math, eleWIDTH, eleHEIGHT]

/-- Claim C3: for `A ≠ B` the sampler emits a segment whose direction is
orthogonal to `B - A` (exact zero dot product) and whose midpoint is exactly
the midpoint of `A` and `B`. -/
theorem perp_bisector_orthogonal_through_midpoint (A B : ℝ × ℝ) (hAB : A ≠ B) :
    ∃ p q : ℝ × ℝ, perpBisector A B = some (p, q) ∧
      (q.1 - p.1) * (B.1 - A.1) + (q.2 - p.2) * (B.2 - A.2) = 0 ∧
      (p.1 + q.1) / 2 = (A.1 + B.1) / 2 ∧ (p.2 + q.2) / 2 = (A.2 + B.2) / 2 := by
  have hne : B.1 - A.1 ≠ 0 ∨ B.2 - A.2 ≠ 0 := by
    by_contra hc
    push_neg at hc
    exact hAB (Prod.ext (by linarith [hc.1]) (by linarith [hc.2])).symm
  have hpos : 0 < (B.1 - A.1) * (B.1 - A.1) + (B.2 - A.2) * (B.2 - A.2) := by
    rcases hne with h | h
    · nlinarith [mul_self_pos.mpr h, mul_self_nonneg (B.2 - A.2)]
    · nlinarith [mul_self_pos.mpr h, mul_self_nonneg (B.1 - A.1)]
  have hsq : 0 < Real.sqrt ((B.1 - A.1) * (B.1 - A.1) + (B.2 - A.2) * (B.2 - A.2)) :=
    Real.sqrt_pos.mpr hpos
  refine ⟨((midAB A B).1 + (perpHalf A B).1, (midAB A B).2 + (perpHalf A B).2),
    ((midAB A B).1 - (perpHalf A B).1, (midAB A B).2 - (perpHalf A B).2), ?_, ?_, ?_, ?_⟩
  · rw [perpBisector, if_pos hsq]
  · simp only [perpHalf, midAB]
    ring
  · simp only [perpHalf, midAB]
    ring
  · simp only [perpHalf, midAB]
    ring

/-- Witness for claim C3 at the concrete input `A = (0,0)`, `B = (2,0)`. -/
theorem perp_bisector_orthogonal_through_midpoint_witness :
    ∃ p q : ℝ × ℝ, perpBisector (0, 0) (2, 0) = some (p, q) ∧
      (q.1 - p.1) * ((2:ℝ) - 0) + (q.2 - p.2) * ((0:ℝ) - 0) = 0 ∧
      (p.1 + q.1) / 2 = ((0:ℝ) + 2) / 2 ∧ (p.2 + q.2) / 2 = ((0:ℝ) + 0) / 2 :=
  perp_bisector_orthogonal_through_midpoint (0, 0) (2, 0)
    (by simp [Prod.ext_iff])

/-- Claim C8: when `A = B` the zero-length guard makes the sampler emit
nothing, so the division by `length` is never reached. -/
theorem perp_bisector_degenerate_none (A B : ℝ × ℝ) (hAB : A = B) :
    perpBisector A B = none := by
  subst hAB
  simp [perpBisector]

/-- Witness for claim C8 at the concrete input `A = B = (1, 2)`. -/
theorem perp_bisector_degenerate_none_witness :
    perpBisector ((1:ℝ), (2:ℝ)) (1, 2) = none :=
  perp_bisector_degenerate_none (1, 2) (1, 2) rfl

/-- Claim C4: the 4D-slice sampler's y-value is the square root of the
absolute value of the radicand, so the radicand fed to `Real.sqrt` is
nonnegative for all inputs (the computation is total, never a domain error)
and the result is a genuine nonnegative square root of `|r² - s² - x²|`. -/
theorem slice_yval_total (r s x : ℝ) :
    sliceYVal r s x = Real.sqrt |r ^ 2 - s ^ 2 - x ^ 2| ∧
    0 ≤ |r ^ 2 - s ^ 2 - x ^ 2| ∧
    sliceYVal r s x ^ 2 = |r ^ 2 - s ^ 2 - x ^ 2| ∧
    0 ≤ sliceYVal r s x := by
  refine ⟨rfl, abs_nonneg _, ?_, Real.sqrt_nonneg _⟩
  exact Real.sq_sqrt (abs_nonneg _)

/-- Real parameter value `i` of `np.linspace(0, 2*pi, 40)`: step `2π/39`,
covering `[0, 2π]` for `i = 0, ..., 39`. -/
noncomputable def tReal (i : ℕ) : ℝ := 2 * Real.pi * i / 39

/-- Imaginary parameter value `j` of `np.linspace(-0.5, 0.5, 5)`: step `0.25`,
covering `[-0.5, 0.5]` for `j = 0, ..., 4`. -/
noncomputable def tImag (j : ℕ) : ℝ := -0.5 + j * 0.25

/-- Embedding of `z1 = r * complex(cos(t.real)*cosh(t.imag), -sin(t.real)*sinh(t.imag))`
from `complex_circle_solutions`. -/
noncomputable def z1val (r a b : ℝ) : ℂ :=
  ⟨r * (Real.cos a * Real.cosh b), r * (-(Real.sin a * Real.sinh b))⟩

/-- Embedding of `z2 = r * complex(sin(t.real)*cosh(t.imag), cos(t.real)*sinh(t.imag))`
from `complex_circle_solutions`. -/
noncomputable def z2val (r a b : ℝ) : ℂ :=
  ⟨r * (Real.sin a * Real.cosh b), r * (Real.cos a * Real.sinh b)⟩

/-- The 40 × 5 index grid of the two nested sampling loops of
`complex_circle_solutions`. -/
def solutionGrid : List (ℕ × ℕ) :=
  (List.range 40).flatMap (fun i => (List.range 5).map (fun j => (i, j)))

/-- Embedding of `CrossSectionViz.complex_circle_solutions`: one `(z1, z2)` pair
appended per `(real_t, complex_param)` grid point. -/
noncomputable def complex_circle_solutions (r : ℝ) : List (ℂ × ℂ) :=
  solutionGrid.map (fun p => (z1val r (tReal p.1) (tImag p.2), z2val r (tReal p.1) (tImag p.2)))

/-- Pointwise curve identity: the sampled pair lies exactly on `z1² + z2² = r²`. -/
theorem z_sq_identity (r a b : ℝ) : z1val r a b ^ 2 + z2val r a b ^ 2 = (r : ℂ) ^ 2 := by
  have h1 := Real.sin_sq_add_cos_sq a
  have h2 := Real.cosh_sq_sub_sinh_sq b
  apply Complex.ext
  · simp only [z1val, z2val, pow_two, Complex.mul_re, Complex.mul_im, Complex.add_re,
      Complex.ofReal_re, Complex.ofReal_im]
    linear_combination (r ^ 2 * Real.cosh b ^ 2 - r ^ 2 * Real.sinh b ^ 2) * h1 + r ^ 2 * h2
  · simp only [z1val, z2val, pow_two, Complex.mul_re, Complex.mul_im, Complex.add_im,
      Complex.ofReal_re, Complex.ofReal_im]
    ring

set_option maxRecDepth 10000 in
/-- Claim C5: the complex-curve sampler emits exactly one pair per point of the
40 × 5 parameter grid (200 pairs), and every emitted pair `(z1, z2)` satisfies
`z1² + z2² = r²` exactly in exact complex arithmetic. -/
theorem complex_solutions_on_curve (r : ℝ) :
    (complex_circle_solutions r).length = 40 * 5 ∧
    ∀ z ∈ complex_circle_solutions r, z.1 ^ 2 + z.2 ^ 2 = (r : ℂ) ^ 2 := by
  constructor
  · rw [complex_circle_solutions, List.length_map]
    decide
  · intro z hz
    rw [complex_circle_solutions, List.mem_map] at hz
    obtain ⟨p, _, hp⟩ := hz
    rw [← hp]
    exact z_sq_identity r (tReal p.1) (tImag p.2)

/-- Witness for claim C5: the grid point `(0, 0)` of the sampler at `r = 1`
lies on the curve. -/
theorem complex_solutions_on_curve_witness :
    (z1val 1 (tReal 0) (tImag 0)) ^ 2 + (z2val 1 (tReal 0) (tImag 0)) ^ 2 = ((1 : ℝ) : ℂ) ^ 2 := by
  have h00 : ((0, 0) : ℕ × ℕ) ∈ solutionGrid := by
    rw [solutionGrid]
    refine List.mem_flatMap.mpr ⟨0, ?_, List.mem_map.mpr ⟨0, ?_, rfl⟩⟩
    · simp
    · simp
  exact (complex_solutions_on_curve 1).2 _ (List.mem_map_of_mem _ h00)

/-- The fixed radius of the cross-section visualization (`self.radius = 80`). -/
def crossRadius : ℤ := 80

/-- The bounded integer grid `range(-2, 3) × range(-2, 3)` enumerated by the
finite-field sampler in `draw_multi_field_comparison`. -/
def fieldGrid : List (ℤ × ℤ) :=
  ([-2, -1, 0, 1, 2] : List ℤ).flatMap
    (fun x => ([-2, -1, 0, 1, 2] : List ℤ).map (fun y => (x, y)))

/-- Embedding of the finite-field sampler: keep the grid points satisfying
`(x*x + y*y) % 11 == (radius // 10) % 11` (Python `//` is floor division and
`%` is nonnegative for a positive modulus, matching `Int.fdiv` and `Int.emod`). -/
def fieldPoints (radius : ℤ) : List (ℤ × ℤ) :=
  fieldGrid.filter (fun p => (p.1 * p.1 + p.2 * p.2) % 11 == Int.fdiv radius 10 % 11)

/-- Claim C6: every lattice point emitted by the finite-field sampler satisfies
`(x² + y²) mod 11 = (radius // 10) mod 11` for the fixed radius 80, and every
enumerated grid point satisfying the modular equation is emitted. -/
theorem field_points_modular :
    (∀ p ∈ fieldPoints crossRadius, (p.1 * p.1 + p.2 * p.2) % 11 = Int.fdiv crossRadius 10 % 11) ∧
    (∀ p ∈ fieldGrid,
      (p.1 * p.1 + p.2 * p.2) % 11 = Int.fdiv crossRadius 10 % 11 → p ∈ fieldPoints crossRadius) := by
  decide

/-- Witness for claim C6: the emitted point `(2, 2)` satisfies the modular
equation `(4 + 4) mod 11 = 8 = (80 // 10) mod 11`. -/
theorem field_points_modular_witness :
    ((2 : ℤ) * 2 + (2 : ℤ) * 2) % 11 = Int.fdiv crossRadius 10 % 11 :=
  field_points_modular.1 (2, 2) (by decide)

/-- The four named points of `GeometryViz.points`. -/
inductive PtName where
  | A
  | B
  | C
  | D
deriving DecidableEq

/-- The three geometry modes of `GeometryMode`. -/
inductive GeometryMode where
  | euclidean
  | affine
  | both
deriving DecidableEq

/-- The six keys handled by the `KEYDOWN` branch of `GeometryViz.run`. -/
inductive EleKey where
  | e
  | a
  | b
  | g
  | space
  | r
deriving DecidableEq

/-- The mutable state of `GeometryViz` that the claims are about. -/
structure EleState where
  mode : GeometryMode
  show_grid : Bool
  animate : Bool
  time : ℝ
  points : PtName → ℤ × ℤ
  dragging : Option PtName
  drag_offset : ℤ × ℤ
  pulse_phase : ℝ
  rotation_angle : ℝ

/-- The default point positions set in `__init__` and restored by the `R` key. -/
def defaultPoints : PtName → ℤ × ℤ
  | .A => (-120, -80)
  | .B => (150, 120)
  | .C => (-80, 150)
  | .D => (120, -120)

/-- Embedding of the `KEYDOWN` dispatch of `GeometryViz.run`. -/
def eleHandleKey (k : EleKey) (s : EleState) : EleState :=
  match k with
  | .e => { s with mode := .euclidean }
  | .a => { s with mode := .affine }
  | .b => { s with mode := .both }
  | .g => { s with show_grid := !s.show_grid }
  | .space => { s with animate := !s.animate }
  | .r => { s with points := defaultPoints }

/-- Iteration order of `self.points.items()`: dict insertion order A, B, C, D. -/
def pointNames : List PtName := [.A, .B, .C, .D]

/-- The hit test of `handle_mouse`: the first point whose screen position is
within distance 15 of the mouse (`sqrt(dx² + dy²) < 15 ↔ dx² + dy² < 225`). -/
def findHit (points : PtName → ℤ × ℤ) (m : ℤ × ℤ) : Option PtName :=
  pointNames.find? (fun n =>
    decide ((m.1 - (to_screen (points n).1 (points n).2).1) ^ 2 +
            (m.2 - (to_screen (points n).1 (points n).2).2) ^ 2 < 225))

/-- Embedding of `GeometryViz.handle_mouse`: on left press, either pick up the
first point under the cursor, or move the currently dragged point; on release,
drop the drag. -/
def handle_mouse (m : ℤ × ℤ) (pressed : Bool) (s : EleState) : EleState :=
  if pressed then
    match s.dragging with
    | none =>
      match findHit s.points m with
      | some n =>
        { s with dragging := some n,
                 drag_offset := (m.1 - (to_screen (s.points n).1 (s.points n).2).1,
                                 m.2 - (to_screen (s.points n).1 (s.points n).2).2) }
      | none => s
    | some n =>
      { s with points :=
          Function.update s.points n (to_math (m.1 - s.drag_offset.1) (m.2 - s.drag_offset.2)) }
  else { s with dragging := none }

/-- One iteration of the `GeometryViz.run` loop: advance `time` by `dt`
unconditionally, advance `pulse_phase`/`rotation_angle` only when animating,
then process the frame's key events and the mouse state. -/
noncomputable def eleTick (dt : ℝ) (keys : List EleKey) (m : ℤ × ℤ) (pressed : Bool)
    (s : EleState) : EleState :=
  handle_mouse m pressed
    ((keys.foldl (fun st k => eleHandleKey k st))
      (if s.animate then
        { s with time := s.time + dt, pulse_phase := s.pulse_phase + dt * 3,
                 rotation_angle := s.rotation_angle + dt * 0.5 }
       else { s with time := s.time + dt }))

/-- The shear factor computed each frame in `draw_affine_elements`:
`0.3 * sin(self.time * 0.5)`. -/
noncomputable def shearFactor (s : EleState) : ℝ := 0.3 * Real.sin (s.time * 0.5)

/-- Claim C9: the reset key always restores the points to exactly
`{A: (-120, -80), B: (150, 120), C: (-80, 150), D: (120, -120)}`,
regardless of the current state. -/
theorem reset_restores_defaults (s : EleState) :
    (eleHandleKey .r s).points .A = (-120, -80) ∧
    (eleHandleKey .r s).points .B = (150, 120) ∧
    (eleHandleKey .r s).points .C = (-80, 150) ∧
    (eleHandleKey .r s).points .D = (120, -120) :=
  ⟨rfl, rfl, rfl, rfl⟩

/-- Claim C7: a mouse-handling step taken while a point is being dragged
changes only that point; every other point's coordinates are unchanged. -/
theorem drag_updates_only_dragged (s : EleState) (m : ℤ × ℤ) (n p : PtName)
    (hd : s.dragging = some n) (hp : p ≠ n) :
    (handle_mouse m true s).points p = s.points p := by
  simp only [handle_mouse, hd, if_pos]
  exact Function.update_noteq hp _ _

/-- A concrete `GeometryViz` state used to instantiate the dragging claims:
the initial state except that point `A` is being dragged. -/
noncomputable def eleDragState : EleState :=
  { mode := .both, show_grid := true, animate := true, time := 0,
    points := defaultPoints, dragging := some .A, drag_offset := (3, 4),
    pulse_phase := 0, rotation_angle := 0 }

/-- Witness for claim C7: dragging `A` leaves `B` untouched in a concrete step. -/
theorem drag_updates_only_dragged_witness :
    (handle_mouse (10, 20) true eleDragState).points .B = eleDragState.points .B :=
  drag_updates_only_dragged eleDragState (10, 20) .A .B rfl (by decide)

/-- The four view modes of `ViewMode` in the cross-section visualization. -/
inductive ViewMode where
  | realPlane
  | complexProj
  | fourDSlices
  | multiField
deriving DecidableEq

/-- The eleven keys handled by the `KEYDOWN` branch of `CrossSectionViz.run`. -/
inductive CrossKey where
  | k1
  | k2
  | k3
  | k4
  | up
  | down
  | left
  | right
  | p
  | h
  | a
deriving DecidableEq

/-- The mutable state of `CrossSectionViz` that the claims are about. -/
structure CrossState where
  view_mode : ViewMode
  time : ℝ
  show_projections : Bool
  show_hidden_dims : Bool
  animate : Bool
  slice_real_im : ℝ
  slice_imaginary : ℝ

/-- Embedding of the `KEYDOWN` dispatch of `CrossSectionViz.run`. -/
noncomputable def crossHandleKey (k : CrossKey) (s : CrossState) : CrossState :=
  match k with
  | .k1 => { s with view_mode := .realPlane }
  | .k2 => { s with view_mode := .complexProj }
  | .k3 => { s with view_mode := .fourDSlices }
  | .k4 => { s with view_mode := .multiField }
  | .up => { s with slice_real_im := s.slice_real_im + 0.1 }
  | .down => { s with slice_real_im := s.slice_real_im - 0.1 }
  | .left => { s with slice_imaginary := s.slice_imaginary - 0.1 }
  | .right => { s with slice_imaginary := s.slice_imaginary + 0.1 }
  | .p => { s with show_projections := !s.show_projections }
  | .h => { s with show_hidden_dims := !s.show_hidden_dims }
  | .a => { s with animate := !s.animate }

/-- One iteration of the `CrossSectionViz.run` loop: advance `time` by `dt`
unconditionally, then (only when animating) overwrite both slice parameters
with `0.3*sin(time*0.5)` and `0.3*cos(time*0.7)`, then process the frame's
key events. -/
noncomputable def crossTick (dt : ℝ) (keys : List CrossKey) (s : CrossState) : CrossState :=
  (keys.foldl (fun st k => crossHandleKey k st))
    (if s.animate then
      { s with time := s.time + dt,
               slice_real_im := 0.3 * Real.sin ((s.time + dt) * 0.5),
               slice_imaginary := 0.3 * Real.cos ((s.time + dt) * 0.7) }
     else { s with time := s.time + dt })

/-- Whether a key is one of the four arrow keys adjusting slice parameters. -/
def isArrow : CrossKey → Bool
  | .up => true
  | .down => true
  | .left => true
  | .right => true
  | _ => false

/-- Claim C10: while animating, a tick overwrites both slice parameters with
pure functions of the elapsed time before any key event is processed, so an
arrow-key adjustment made in a previous frame is discarded by the next tick:
ticking from the adjusted state gives exactly the same state as ticking from
the unadjusted one. -/
theorem slices_overwritten_before_keys (s : CrossState) (k : CrossKey) (dt : ℝ)
    (keys : List CrossKey) (ha : s.animate = true) (hk : isArrow k = true) :
    (crossTick dt [] s).slice_real_im = 0.3 * Real.sin ((s.time + dt) * 0.5) ∧
    (crossTick dt [] s).slice_imaginary = 0.3 * Real.cos ((s.time + dt) * 0.7) ∧
    crossTick dt keys (crossHandleKey k s) = crossTick dt keys s := by
  cases k <;> simp_all [crossTick, crossHandleKey, isArrow]

/-- A concrete `CrossSectionViz` state with animation enabled. -/
noncomputable def crossAnimState : CrossState :=
  { view_mode := .fourDSlices, time := 0, show_projections := true,
    show_hidden_dims := true, animate := true, slice_real_im := 0,
    slice_imaginary := 0 }

/-- Witness for claim C10 at a concrete animating state, arrow key `↑`,
`dt = 1` and no events in the following frame. -/
theorem slices_overwritten_before_keys_witness :
    (crossTick 1 [] crossAnimState).slice_real_im =
      0.3 * Real.sin ((crossAnimState.time + 1) * 0.5) ∧
    (crossTick 1 [] crossAnimState).slice_imaginary =
      0.3 * Real.cos ((crossAnimState.time + 1) * 0.7) ∧
    crossTick 1 [] (crossHandleKey .up crossAnimState) = crossTick 1 [] crossAnimState :=
  slices_overwritten_before_keys crossAnimState .up 1 [] rfl rfl

/-- A concrete `GeometryViz` state with animation off (as after toggling it
off), at time 0. -/
noncomputable def eleFrozenState : EleState :=
  { mode := .both, show_grid := true, animate := false, time := 0,
    points := defaultPoints, dragging := none, drag_offset := (0, 0),
    pulse_phase := 0, rotation_angle := 0 }

/-- Counterexample for claim C2: with animation off, one frame of the loop
still changes the shear factor, because `self.time` keeps advancing and the
shear factor is `0.3 * sin(self.time * 0.5)`. -/
theorem animate_off_shear_still_changes :
    shearFactor (eleTick 1 [] (0, 0) false eleFrozenState) ≠ shearFactor eleFrozenState := by
  have h1 : shearFactor (eleTick 1 [] (0, 0) false eleFrozenState) = 0.3 * Real.sin 0.5 := by
    simp [eleTick, handle_mouse, eleFrozenState, shearFactor]
  have h2 : shearFactor eleFrozenState = 0 := by
    simp [eleFrozenState, shearFactor]
  rw [h1, h2]
  have hs : 0 < Real.sin 0.5 := by
    apply Real.sin_pos_of_pos_of_lt_pi
    · norm_num
    · nlinarith [Real.pi_gt_three]
  positivity

/-- Frames of `GeometryViz.run` with no key events and the mouse released,
one per entry of `dts`. -/
noncomputable def eleTickN (dts : List ℝ) (s : EleState) : EleState :=
  dts.foldl (fun st dt => eleTick dt [] (0, 0) false st) s

/-- Frames of `CrossSectionViz.run` with no key events, one per entry of `dts`. -/
noncomputable def crossTickN (dts : List ℝ) (s : CrossState) : CrossState :=
  dts.foldl (fun st dt => crossTick dt [] st) s

/-- One no-input frame of `GeometryViz.run` with animation off keeps the
animation flag off and freezes `pulse_phase` and `rotation_angle`. -/
theorem eleTick_frozen_step (dt : ℝ) (m : ℤ × ℤ) (s : EleState) (h : s.animate = false) :
    (eleTick dt [] m false s).animate = false ∧
    (eleTick dt [] m false s).pulse_phase = s.pulse_phase ∧
    (eleTick dt [] m false s).rotation_angle = s.rotation_angle := by
  simp [eleTick, handle_mouse, h]

/-- One no-input frame of `CrossSectionViz.run` with animation off keeps the
animation flag off and freezes both slice parameters. -/
theorem crossTick_frozen_step (dt : ℝ) (s : CrossState) (h : s.animate = false) :
    (crossTick dt [] s).animate = false ∧
    (crossTick dt [] s).slice_real_im = s.slice_real_im ∧
    (crossTick dt [] s).slice_imaginary = s.slice_imaginary := by
  simp [crossTick, h]

/-- Claim C2 (amended): once the animation flag is off, across any number of
subsequent frames without further input, `pulse_phase` and `rotation_angle`
(in `GeometryViz`) and both slice parameters (in `CrossSectionViz`) keep their
last computed values; the shear factor is excluded because it is a function of
`self.time`, which advances every frame regardless of the flag. -/
theorem animate_off_freezes_pulse_rotation_slices (dts : List ℝ)
    (s : EleState) (c : CrossState) (hs : s.animate = false) (hc : c.animate = false) :
    ((eleTickN dts s).pulse_phase = s.pulse_phase ∧
     (eleTickN dts s).rotation_angle = s.rotation_angle) ∧
    ((crossTickN dts c).slice_real_im = c.slice_real_im ∧
     (crossTickN dts c).slice_imaginary = c.slice_imaginary) := by
  induction dts generalizing s c with
  | nil => exact ⟨⟨rfl, rfl⟩, ⟨rfl, rfl⟩⟩
  | cons d ds ih =>
    have he := eleTick_frozen_step d (0, 0) s hs
    have hcr := crossTick_frozen_step d c hc
    have ih' := ih (eleTick d [] (0, 0) false s) (crossTick d [] c) he.1 hcr.1
    refine ⟨⟨?_, ?_⟩, ⟨?_, ?_⟩⟩
    · rw [eleTickN, List.foldl_cons, ← eleTickN, ih'.1.1, he.2.1]
    · rw [eleTickN, List.foldl_cons, ← eleTickN, ih'.1.2, he.2.2]
    · rw [crossTickN, List.foldl_cons, ← crossTickN, ih'.2.1, hcr.2.1]
    · rw [crossTickN, List.foldl_cons, ← crossTickN, ih'.2.2, hcr.2.2]

/-- A concrete `CrossSectionViz` state with animation off. -/
noncomputable def crossFrozenState : CrossState :=
  { view_mode := .fourDSlices, time := 0, show_projections := true,
    show_hidden_dims := true, animate := false, slice_real_im := 0.2,
    slice_imaginary := -0.1 }

/-- Witness for the amended claim C2 across two concrete frames. -/
theorem animate_off_freezes_pulse_rotation_slices_witness :
    ((eleTickN [1, 2] eleFrozenState).pulse_phase = eleFrozenState.pulse_phase ∧
     (eleTickN [1, 2] eleFrozenState).rotation_angle = eleFrozenState.rotation_angle) ∧
    ((crossTickN [1, 2] crossFrozenState).slice_real_im = crossFrozenState.slice_real_im ∧
     (crossTickN [1, 2] crossFrozenState).slice_imaginary = crossFrozenState.slice_imaginary) :=
  animate_off_freezes_pulse_rotation_slices [1, 2] eleFrozenState crossFrozenState rfl rfl
